import Mathlib

/-!
Verification of the IntelliPdf repository against its specification.

The frontend TypeScript sources (document store, document loader, viewer
components) are embedded directly.  The backend ranking engine
(PageBlockReader, SectionSegmenter, RelevanceRanker, batch pipeline) is not
part of the source tree, so those components are modelled from the
specification text, as marked on each definition.

Modelling conventions: JavaScript numbers are modelled as `Rat` (ℚ) where
fractional values occur and as `Nat` for indices and counts; JavaScript
`null` is `Option.none`; thrown-and-caught exceptions are explicit
`Option`/sum results.
-/

/-- Document record held by the frontend store (interface PdfDoc in the
frontend types).  Fields not read by any store operation (blob, status,
dateISO, pages) are carried as plain data where the claims need them and
omitted otherwise. -/
structure PdfDoc where
  id : String
  name : String
  filePath : String
  url : String
  sizeBytes : ℚ
  uploadedAt : String
  summary : String
  deriving Repr, DecidableEq

/-- Text selection made in the viewer (interface DocumentSelection). -/
structure DocumentSelection where
  text : String
  page : Nat
  deriving Repr, DecidableEq

/-- State of the zustand document store (useDocumentStore.ts): library
documents, the analysis set of document ids, selected analysis files, the
active document id, the current selection and the storage statistics. -/
structure StoreState where
  documents : List PdfDoc
  selectedAnalysisFiles : List PdfDoc
  analysisSet : List String
  activeDocId : Option String
  selection : Option DocumentSelection
  documentsToday : Nat
  storageUsed : ℚ
  maxStorage : ℚ
  deriving Repr, DecidableEq

/-- Store action removeDocument (useDocumentStore.ts lines 48-56): filters
the document and the analysis-set entry out, clears activeDocId when it
pointed at the removed id, and subtracts the found document's size in
megabytes from storageUsed.  zustand's set merges the partial update, so
every field not mentioned keeps its value. -/
def removeDocument (id : String) (s : StoreState) : StoreState :=
  let doc := s.documents.find? (fun d => d.id == id)
  { s with
    documents := s.documents.filter (fun d => d.id != id)
    analysisSet := s.analysisSet.filter (fun docId => docId != id)
    activeDocId := if s.activeDocId = some id then none else s.activeDocId
    storageUsed :=
      match doc with
      | some d => s.storageUsed - d.sizeBytes / (1024 * 1024)
      | none => s.storageUsed }

/-- Store action addToAnalysisSet (useDocumentStore.ts lines 74-76): removes
any occurrence of docId from analysisSet and appends docId at the end. -/
def addToAnalysisSet (docId : String) (s : StoreState) : StoreState :=
  { s with analysisSet := s.analysisSet.filter (fun id => id != docId) ++ [docId] }

/-- C8: removeDocument(id) leaves no document with that id, removes id from
the analysis set, nulls activeDocId exactly when it equalled id, subtracts
the found document's sizeBytes in megabytes from storageUsed (unchanged when
no document has that id), and leaves every other store field unchanged. -/
theorem removeDocument_spec (s : StoreState) (id : String) :
    (∀ d ∈ (removeDocument id s).documents, d.id ≠ id)
    ∧ id ∉ (removeDocument id s).analysisSet
    ∧ (s.activeDocId = some id → (removeDocument id s).activeDocId = none)
    ∧ (s.activeDocId ≠ some id → (removeDocument id s).activeDocId = s.activeDocId)
    ∧ (∀ d, s.documents.find? (fun d => d.id == id) = some d →
        (removeDocument id s).storageUsed = s.storageUsed - d.sizeBytes / (1024 * 1024))
    ∧ (s.documents.find? (fun d => d.id == id) = none →
        (removeDocument id s).storageUsed = s.storageUsed)
    ∧ (removeDocument id s).documentsToday = s.documentsToday
    ∧ (removeDocument id s).selection = s.selection
    ∧ (removeDocument id s).selectedAnalysisFiles = s.selectedAnalysisFiles
    ∧ (removeDocument id s).maxStorage = s.maxStorage := by
  refine ⟨?_, ?_, ?_, ?_, ?_, ?_, rfl, rfl, rfl, rfl⟩
  · intro d hd
    simp only [removeDocument, List.mem_filter, bne_iff_ne, ne_eq] at hd
    exact hd.2
  · intro hmem
    have h2 := (List.mem_filter.mp hmem).2
    simp at h2
  · intro h
    simp [removeDocument, h]
  · intro h
    simp [removeDocument, h]
  · intro d h
    simp [removeDocument, h]
  · intro h
    simp [removeDocument, h]

/-- Concrete document used by witness instantiations. -/
def sampleDoc : PdfDoc :=
  { id := "d1", name := "Doc One", filePath := "/files/d1.pdf", url := "/files/d1.pdf"
    sizeBytes := 2097152, uploadedAt := "2025-01-01", summary := "" }

/-- Concrete store state used by witness instantiations. -/
def sampleStore : StoreState :=
  { documents := [sampleDoc], selectedAnalysisFiles := [], analysisSet := ["d1", "d2"]
    activeDocId := some "d1", selection := none, documentsToday := 1
    storageUsed := 2, maxStorage := 35 }

/-- Witness for C8 at a concrete store and id. -/
theorem removeDocument_spec_witness :
    (∀ d ∈ (removeDocument "d1" sampleStore).documents, d.id ≠ "d1")
    ∧ (removeDocument "d1" sampleStore).activeDocId = none
    ∧ (removeDocument "d1" sampleStore).storageUsed = 2 - 2097152 / (1024 * 1024) := by
  refine ⟨(removeDocument_spec sampleStore "d1").1, ?_, ?_⟩
  · exact (removeDocument_spec sampleStore "d1").2.2.1 rfl
  · exact (removeDocument_spec sampleStore "d1").2.2.2.2.1 sampleDoc (by decide)

/-- C9: after addToAnalysisSet(docId) the analysis set contains docId exactly
once and as its last element, and the action is idempotent on the whole
store state. -/
theorem addToAnalysisSet_spec (s : StoreState) (docId : String) :
    (addToAnalysisSet docId s).analysisSet.count docId = 1
    ∧ (addToAnalysisSet docId s).analysisSet.getLast? = some docId
    ∧ addToAnalysisSet docId (addToAnalysisSet docId s) = addToAnalysisSet docId s := by
  refine ⟨?_, ?_, ?_⟩
  · have hzero : (s.analysisSet.filter (fun id => id != docId)).count docId = 0 := by
      rw [List.count_eq_zero]
      intro hmem
      simp [List.mem_filter] at hmem
    simp [addToAnalysisSet, List.count_append, hzero]
  · simp [addToAnalysisSet]
  · simp only [addToAnalysisSet, List.filter_append]
    have : (s.analysisSet.filter (fun id => id != docId)).filter (fun id => id != docId)
        = s.analysisSet.filter (fun id => id != docId) := by
      rw [List.filter_filter]
      apply List.filter_congr
      intro a _
      simp
    simp [this]

/-- Shape of one section object inside current_doc.json as read by
documentLoader.ts.  The snippets field is optional in the JSON
(section.snippets may be absent, hence Option). -/
structure SectionData where
  section_id : String
  heading : String
  heading_level : Nat
  page_number : Nat
  content : String
  snippets : Option (List String)
  deriving Repr, DecidableEq

/-- Shape of one document object inside current_doc.json.  A missing
sections array is modelled as none: accessing docData.sections.map on it
throws at runtime and is caught by the surrounding try/catch. -/
structure DocData where
  doc_id : String
  title : String
  file_path : String
  sections : Option (List SectionData)
  deriving Repr, DecidableEq

/-- Parsed top-level value of current_doc.json.  A missing documents key is
modelled as none. -/
structure CurrentDocJson where
  documents : Option (List DocData)
  deriving Repr, DecidableEq

/-- Outcome of the fetch call in loadCurrentDocument: the network request may
reject, or produce a response with an ok flag and a body; body none models a
response whose json() call throws (malformed JSON), and some none models a
JSON null value. -/
inductive FetchOutcome where
  | networkError : FetchOutcome
  | response : Bool → Option (Option CurrentDocJson) → FetchOutcome
  deriving Repr, DecidableEq

/-- Section element of the PdfDoc built by the loader (mapped from
SectionData; missing snippets default to the empty list). -/
structure LoadedSection where
  id : String
  heading : String
  headingLevel : Nat
  pageNumber : Nat
  content : String
  snippets : List String
  deriving Repr, DecidableEq

/-- PdfDoc value produced by loadCurrentDocument (documentLoader.ts): id,
name, content, file path and url come from the first document of the JSON;
sizeBytes and summary are placeholders. -/
structure LoadedPdfDoc where
  id : String
  name : String
  content : String
  filePath : String
  url : String
  sizeBytes : ℚ
  summary : String
  sections : List LoadedSection
  deriving Repr, DecidableEq

/-- Embedding of loadCurrentDocument (documentLoader.ts lines 3-42).  Every
throwing path (network failure, non-OK status, json() failure, missing
documents or sections fields) ends in the catch block, which returns null;
otherwise the first document is converted, with content the section contents
joined by a blank line. -/
def loadCurrentDocument : FetchOutcome → Option LoadedPdfDoc
  | FetchOutcome.networkError => none
  | FetchOutcome.response false _ => none
  | FetchOutcome.response true none => none
  | FetchOutcome.response true (some none) => none
  | FetchOutcome.response true (some (some data)) =>
    match data.documents with
    | none => none
    | some [] => none
    | some (docData :: _) =>
      match docData.sections with
      | none => none
      | some secs =>
        some
          { id := docData.doc_id
            name := docData.title
            content := String.intercalate "\n\n" (secs.map (fun s => s.content))
            filePath := docData.file_path
            url := docData.file_path
            sizeBytes := 0
            summary := ""
            sections := secs.map (fun s =>
              { id := s.section_id
                heading := s.heading
                headingLevel := s.heading_level
                pageNumber := s.page_number
                content := s.content
                snippets := s.snippets.getD [] }) }

/-- C10: loadCurrentDocument is a total function of the fetch outcome (never
throws); it returns none on network failure, non-OK status, malformed JSON,
null data, and a missing or empty documents array, and whenever it returns a
document, that document's content is the first JSON document's section
contents joined by a blank line. -/
theorem loadCurrentDocument_spec :
    loadCurrentDocument FetchOutcome.networkError = none
    ∧ (∀ body, loadCurrentDocument (FetchOutcome.response false body) = none)
    ∧ loadCurrentDocument (FetchOutcome.response true none) = none
    ∧ loadCurrentDocument (FetchOutcome.response true (some none)) = none
    ∧ (∀ data, data.documents = none ∨ data.documents = some [] →
        loadCurrentDocument (FetchOutcome.response true (some (some data))) = none)
    ∧ (∀ o doc, loadCurrentDocument o = some doc →
        ∃ data docData rest secs,
          o = FetchOutcome.response true (some (some data))
          ∧ data.documents = some (docData :: rest)
          ∧ docData.sections = some secs
          ∧ doc.content = String.intercalate "\n\n" (secs.map (fun s => s.content))) := by
  refine ⟨rfl, fun body => rfl, rfl, rfl, ?_, ?_⟩
  · intro data h
    rcases h with h | h <;> simp [loadCurrentDocument, h]
  · intro o doc h
    match o with
    | FetchOutcome.networkError => exact absurd h (by simp [loadCurrentDocument])
    | FetchOutcome.response false body => exact absurd h (by simp [loadCurrentDocument])
    | FetchOutcome.response true none => exact absurd h (by simp [loadCurrentDocument])
    | FetchOutcome.response true (some none) => exact absurd h (by simp [loadCurrentDocument])
    | FetchOutcome.response true (some (some data)) =>
      match hdocs : data.documents with
      | none => simp [loadCurrentDocument, hdocs] at h
      | some [] => simp [loadCurrentDocument, hdocs] at h
      | some (docData :: rest) =>
        match hsecs : docData.sections with
        | none => simp [loadCurrentDocument, hdocs, hsecs] at h
        | some secs =>
          refine ⟨data, docData, rest, secs, rfl, hdocs, hsecs, ?_⟩
          simp [loadCurrentDocument, hdocs, hsecs] at h
          rw [← h]

/-- Concrete fetch outcome used by the C10 witness: a successful response
whose JSON holds one document with two sections. -/
def sampleFetch : FetchOutcome :=
  FetchOutcome.response true (some (some
    { documents := some
        [{ doc_id := "doc1", title := "Title", file_path := "/f.pdf"
           sections := some
             [{ section_id := "s1", heading := "Intro", heading_level := 1
                page_number := 1, content := "Hello", snippets := none },
              { section_id := "s2", heading := "Body", heading_level := 2
                page_number := 2, content := "World", snippets := some ["w"] }] }] }))

/-- Document value loadCurrentDocument produces on sampleFetch. -/
def sampleLoadedDoc : LoadedPdfDoc :=
  { id := "doc1", name := "Title", content := "Hello\n\nWorld"
    filePath := "/f.pdf", url := "/f.pdf", sizeBytes := 0, summary := ""
    sections :=
      [{ id := "s1", heading := "Intro", headingLevel := 1, pageNumber := 1
         content := "Hello", snippets := [] },
       { id := "s2", heading := "Body", headingLevel := 2, pageNumber := 2
         content := "World", snippets := ["w"] }] }

/-- Witness for C10 at concrete fetch outcomes. -/
theorem loadCurrentDocument_spec_witness :
    loadCurrentDocument (FetchOutcome.response true (some (some { documents := none }))) = none
    ∧ ∃ data docData rest secs,
        sampleFetch = FetchOutcome.response true (some (some data))
        ∧ data.documents = some (docData :: rest)
        ∧ docData.sections = some secs
        ∧ sampleLoadedDoc.content
            = String.intercalate "\n\n" (secs.map (fun s => s.content)) :=
  ⟨loadCurrentDocument_spec.2.2.2.2.1 { documents := none } (Or.inl rfl),
   loadCurrentDocument_spec.2.2.2.2.2 sampleFetch sampleLoadedDoc rfl⟩

/-- JSON value carried in a request body field (string or number; numeric
literals of the source are modelled as exact rationals). -/
inductive JsonValue where
  | str : String → JsonValue
  | num : ℚ → JsonValue
  deriving Repr, DecidableEq

/-- JavaScript truthiness fallback for strings: a || b is b when a is the
empty string. -/
def jsOr (a b : String) : String :=
  if a = "" then b else a

/-- Text the Recommendations panel sends: selection?.text ||
activeDoc?.name || '' (part_005 line 185). -/
def selectedTextOf (selection : Option DocumentSelection) (activeDoc : Option PdfDoc) : String :=
  jsOr ((selection.map (fun s => s.text)).getD "")
    (jsOr ((activeDoc.map (fun d => d.name)).getD "") "")

/-- Body of the POST /search request built by fetchRecommendations
(part_005 lines 184-188), as an ordered field list. -/
def searchRequestBody (selection : Option DocumentSelection) (activeDoc : Option PdfDoc) :
    List (String × JsonValue) :=
  [("selected_text", JsonValue.str (selectedTextOf selection activeDoc)),
   ("top_k", JsonValue.num 3),
   ("min_score", JsonValue.num 0.3)]

/-- Match element of the /search response consumed by the Recommendations
panel (interface Match, part_005 lines 146-152). -/
structure SearchMatch where
  «section» : String
  page_number : Nat
  snippets : List String
  top_snippet : String
  score : ℚ
  deriving Repr, DecidableEq

/-- Per-document entry of the /search response consumed by the
Recommendations panel (interface Recommendation, part_005 lines 154-160). -/
structure Recommendation where
  doc_id : String
  title : String
  pdf_url : String
  source : String
  «matches» : List SearchMatch
  deriving Repr, DecidableEq

/-- C7: every search request the Recommendations panel issues carries
exactly the fields selected_text, top_k and min_score, with top_k = 3 and
min_score = 0.3; and every response entry consumed provides doc_id, title
and a matches list whose elements carry section, page_number, top_snippet
and score. -/
theorem searchRequest_spec :
    (∀ selection activeDoc,
        (searchRequestBody selection activeDoc).map Prod.fst
          = ["selected_text", "top_k", "min_score"])
    ∧ (∀ selection activeDoc,
        List.lookup "top_k" (searchRequestBody selection activeDoc)
          = some (JsonValue.num 3))
    ∧ (∀ selection activeDoc,
        List.lookup "min_score" (searchRequestBody selection activeDoc)
          = some (JsonValue.num 0.3))
    ∧ (∀ r : Recommendation,
        Recommendation.mk r.doc_id r.title r.pdf_url r.source r.«matches» = r)
    ∧ (∀ m : SearchMatch,
        SearchMatch.mk m.«section» m.page_number m.snippets m.top_snippet m.score = m) := by
  refine ⟨fun _ _ => rfl, fun _ _ => ?_, fun _ _ => ?_, fun _ => rfl, fun _ => rfl⟩
  · simp [searchRequestBody, List.lookup]
  · simp [searchRequestBody, List.lookup]

/-- Modelled from the spec: the backend ranker (backend src/ranker.py is not
in the source tree).  A scored candidate section entering RelevanceRanker:
the position of its document in the input configuration list, its section
identity, heading, start page, Section insertion order, and the cosine
similarity of its embedding with the query embedding. -/
structure Candidate where
  docIndex : Nat
  sectionId : Nat
  heading : String
  start_page : Nat
  insertionIdx : Nat
  score : ℚ
  deriving Repr, DecidableEq

/-- Modelled from the spec: sort key of RelevanceRanker, section 4.5 — score
descending, then document position in the input configuration, then
ascending start page, then ascending Section insertion order, as one
lexicographic key. -/
def rankKey (c : Candidate) : Lex (ℚ × Lex (Nat × Lex (Nat × Nat))) :=
  toLex (-c.score, toLex (c.docIndex, toLex (c.start_page, c.insertionIdx)))

/-- Modelled from the spec: the ranking relation of RelevanceRanker; a
candidate precedes another when its key is at most the other's. -/
def rankRel (a b : Candidate) : Prop :=
  rankKey a ≤ rankKey b

instance : DecidableRel rankRel :=
  fun a b => inferInstanceAs (Decidable (rankKey a ≤ rankKey b))

instance : IsTotal Candidate rankRel :=
  ⟨fun a b => le_total (rankKey a) (rankKey b)⟩

instance : IsTrans Candidate rankRel :=
  ⟨fun _ _ _ h1 h2 => le_trans h1 h2⟩

/-- Modelled from the spec: the interactive variant's min_score floor,
section 4.5 — candidates below the caller-supplied threshold are removed
before truncation; the batch variant has no floor (none). -/
def aboveFloor (floor : Option ℚ) (cands : List Candidate) : List Candidate :=
  match floor with
  | none => cands
  | some m => cands.filter (fun c => decide (m ≤ c.score))

/-- Modelled from the spec: the gather phase of RelevanceRanker — one
sequential sort of all candidates by the ranking relation. -/
def sortCandidates (cands : List Candidate) : List Candidate :=
  List.insertionSort rankRel cands

/-- Modelled from the spec: the candidates surviving the floor, sorted, and
truncated to the top K. -/
def topSections (K : Nat) (floor : Option ℚ) (cands : List Candidate) : List Candidate :=
  (sortCandidates (aboveFloor floor cands)).take K

/-- Modelled from the spec: a RankedResult emitted by RelevanceRanker
(data model, section 3). -/
structure RankedResult where
  document_id : Nat
  section_id : Nat
  importance_rank : Nat
  page_number : Nat
  title : String
  deriving Repr, DecidableEq

/-- Modelled from the spec: RelevanceRanker's output — the top K candidates
as RankedResults, importance_rank being the 1-based position in the sorted
order. -/
def rankSections (K : Nat) (floor : Option ℚ) (cands : List Candidate) : List RankedResult :=
  ((topSections K floor cands).enumFrom 1).map (fun p =>
    { document_id := p.2.docIndex
      section_id := p.2.sectionId
      importance_rank := p.1
      page_number := p.2.start_page
      title := p.2.heading })

/-- Modelled from the spec: the default result cap K = 5. -/
def defaultK : Nat := 5

/-- Modelled from the spec: the interactive-search variant — same ranking
core with the caller-supplied top_k and min_score floor. -/
def interactiveSearch (top_k : Nat) (min_score : ℚ) (cands : List Candidate) :
    List RankedResult :=
  rankSections top_k (some min_score) cands

/-- Sorting by the ranking relation preserves the number of candidates. -/
theorem length_sortCandidates (l : List Candidate) :
    (sortCandidates l).length = l.length :=
  (List.perm_insertionSort rankRel l).length_eq

/-- The truncated sorted candidate list is pairwise ordered by the ranking
relation. -/
theorem sorted_topSections (K : Nat) (floor : Option ℚ) (cands : List Candidate) :
    (topSections K floor cands).Pairwise rankRel :=
  (List.sorted_insertionSort rankRel (aboveFloor floor cands)).sublist
    (List.take_sublist K (sortCandidates (aboveFloor floor cands)))

/-- A candidate that precedes another in the ranking relation has at least
the other's score. -/
theorem rankRel_score {a b : Candidate} (h : rankRel a b) : b.score ≤ a.score := by
  simp only [rankRel, rankKey] at h
  rcases (Prod.Lex.le_iff _ _).mp h with h1 | ⟨h1, _⟩
  · exact le_of_lt (neg_lt_neg_iff.mp (by simpa using h1))
  · have h1' : a.score = b.score := by simpa using h1
    exact le_of_eq h1'.symm

/-- On equal scores the ranking relation reduces to the lexicographic
tie-break key: document position, then start page, then insertion order. -/
theorem rankRel_tie {a b : Candidate} (h : rankRel a b) (hs : a.score = b.score) :
    toLex (a.docIndex, toLex (a.start_page, a.insertionIdx))
      ≤ toLex (b.docIndex, toLex (b.start_page, b.insertionIdx)) := by
  simp only [rankRel, rankKey] at h
  rcases (Prod.Lex.le_iff _ _).mp h with h1 | ⟨_, h2⟩
  · have h1' : -a.score < -b.score := by simpa using h1
    rw [hs] at h1'
    exact absurd h1' (lt_irrefl _)
  · exact h2

/-- C1: for every K at least 1 and every candidate list the ranker output has
exactly min(K, number of candidates above the floor) entries, ordered by
descending score, with importance_rank the contiguous sequence 1..N; with
the default K = 5 the output has at most 5 entries. -/
theorem rankSections_spec (K : Nat) (hK : 1 ≤ K) (floor : Option ℚ) (cands : List Candidate) :
    (rankSections K floor cands).length = min K (aboveFloor floor cands).length
    ∧ (topSections K floor cands).Pairwise (fun a b => b.score ≤ a.score)
    ∧ (rankSections K floor cands).map (fun r => r.importance_rank)
        = List.range' 1 ((rankSections K floor cands).length)
    ∧ (rankSections defaultK floor cands).length ≤ 5 := by
  have hlen : ∀ K' : Nat,
      (rankSections K' floor cands).length = min K' (aboveFloor floor cands).length := by
    intro K'
    simp [rankSections, topSections, List.enumFrom_length, List.length_take,
      length_sortCandidates]
  refine ⟨hlen K, ?_, ?_, ?_⟩
  · exact (sorted_topSections K floor cands).imp (fun h => rankRel_score h)
  · have hmap : (rankSections K floor cands).map (fun r => r.importance_rank)
        = List.range' 1 ((topSections K floor cands).length) := by
      simp only [rankSections, List.map_map]
      exact List.enumFrom_map_fst 1 (topSections K floor cands)
    rw [hmap]
    have : (rankSections K floor cands).length = (topSections K floor cands).length := by
      simp [rankSections, List.enumFrom_length]
    rw [this]
  · rw [hlen defaultK]
    exact min_le_left defaultK _

/-- Concrete candidate with score 2 in the first document (integer scores
keep kernel evaluation of the rational comparisons direct). -/
def candA : Candidate :=
  { docIndex := 0, sectionId := 10, heading := "A", start_page := 1, insertionIdx := 0
    score := 2 }

/-- Concrete candidate with the same score as candA in the second document. -/
def candB : Candidate :=
  { docIndex := 1, sectionId := 20, heading := "B", start_page := 2, insertionIdx := 1
    score := 2 }

/-- Concrete candidate with score 0, below any positive floor. -/
def candC : Candidate :=
  { docIndex := 0, sectionId := 30, heading := "C", start_page := 3, insertionIdx := 2
    score := 0 }

/-- Witness for C1 at K = 2 on a concrete candidate list. -/
theorem rankSections_spec_witness :
    1 ≤ 2
    ∧ ((rankSections 2 none [candA, candB, candC]).length
          = min 2 (aboveFloor none [candA, candB, candC]).length
      ∧ (topSections 2 none [candA, candB, candC]).Pairwise (fun a b => b.score ≤ a.score)
      ∧ (rankSections 2 none [candA, candB, candC]).map (fun r => r.importance_rank)
          = List.range' 1 ((rankSections 2 none [candA, candB, candC]).length)
      ∧ (rankSections defaultK none [candA, candB, candC]).length ≤ 5) :=
  ⟨by decide, rankSections_spec 2 (by decide) none [candA, candB, candC]⟩

/-- C2: the ranking relation is total, transitive and antisymmetric in the
ranking key, and within the output any two equal-score candidates are
ordered by document input position, then start page, then Section insertion
order, so the output for equal scores is reproducible. -/
theorem rankOrder_tieBreak_spec :
    (∀ a b : Candidate, rankRel a b ∨ rankRel b a)
    ∧ (∀ a b c : Candidate, rankRel a b → rankRel b c → rankRel a c)
    ∧ (∀ a b : Candidate, rankRel a b → rankRel b a → rankKey a = rankKey b)
    ∧ (∀ (K : Nat) (floor : Option ℚ) (cands : List Candidate),
        (topSections K floor cands).Pairwise (fun a b => a.score = b.score →
          toLex (a.docIndex, toLex (a.start_page, a.insertionIdx))
            ≤ toLex (b.docIndex, toLex (b.start_page, b.insertionIdx)))) := by
  refine ⟨fun a b => le_total _ _, fun a b c h1 h2 => le_trans h1 h2,
    fun a b h1 h2 => le_antisymm h1 h2, ?_⟩
  intro K floor cands
  exact (sorted_topSections K floor cands).imp (fun h hs => rankRel_tie h hs)

/-- Witness for C2 at concrete candidates with equal scores. -/
theorem rankOrder_tieBreak_spec_witness :
    (rankRel candA candB ∨ rankRel candB candA)
    ∧ rankKey candA = rankKey candA
    ∧ (topSections 2 none [candB, candA]).Pairwise (fun a b => a.score = b.score →
        toLex (a.docIndex, toLex (a.start_page, a.insertionIdx))
          ≤ toLex (b.docIndex, toLex (b.start_page, b.insertionIdx))) :=
  ⟨rankOrder_tieBreak_spec.1 candA candB,
   rankOrder_tieBreak_spec.2.2.1 candA candA (by decide) (by decide),
   rankOrder_tieBreak_spec.2.2.2 2 none [candB, candA]⟩

/-- C3: in the interactive variant a candidate scoring exactly min_score
passes the floor filter (inclusive floor), candidates strictly below the
floor never reach the truncated output, and when fewer than top_k
candidates clear the floor the response has exactly that smaller count. -/
theorem interactiveSearch_spec (top_k : Nat) (min_score : ℚ) (cands : List Candidate) :
    (∀ c ∈ cands, c.score = min_score → c ∈ aboveFloor (some min_score) cands)
    ∧ (∀ c : Candidate, c.score < min_score →
        c ∉ topSections top_k (some min_score) cands)
    ∧ ((aboveFloor (some min_score) cands).length < top_k →
        (interactiveSearch top_k min_score cands).length
          = (aboveFloor (some min_score) cands).length) := by
  refine ⟨?_, ?_, ?_⟩
  · intro c hc hs
    simp only [aboveFloor, List.mem_filter]
    exact ⟨hc, by simp [hs]⟩
  · intro c hlt hmem
    have h1 : c ∈ sortCandidates (aboveFloor (some min_score) cands) :=
      (List.take_sublist top_k _).subset hmem
    have h2 : c ∈ aboveFloor (some min_score) cands :=
      (List.perm_insertionSort rankRel _).subset h1
    have h3 := (List.mem_filter.mp h2).2
    simp only [decide_eq_true_eq] at h3
    exact absurd hlt (not_lt.mpr h3)
  · intro hsmall
    have hlen : (interactiveSearch top_k min_score cands).length
        = min top_k (aboveFloor (some min_score) cands).length := by
      simp [interactiveSearch, rankSections, topSections, List.enumFrom_length,
        List.length_take, length_sortCandidates]
    rw [hlen]
    exact Nat.min_eq_right (Nat.le_of_lt hsmall)

/-- Concrete candidate with score 2 used by the C3 witness. -/
def candD : Candidate :=
  { docIndex := 0, sectionId := 40, heading := "D", start_page := 1, insertionIdx := 0
    score := 2 }

/-- Concrete candidate scoring exactly the floor used by the C3 witness. -/
def candE : Candidate :=
  { docIndex := 1, sectionId := 50, heading := "E", start_page := 2, insertionIdx := 1
    score := 1 }

/-- Witness for C3: top_k = 3, a floor of 1 and a corpus where only two
candidates clear the floor (one exactly at the floor) yields exactly two
matches. -/
theorem interactiveSearch_spec_witness :
    candE ∈ aboveFloor (some 1) [candD, candE, candC]
    ∧ candC ∉ topSections 3 (some 1) [candD, candE, candC]
    ∧ (interactiveSearch 3 1 [candD, candE, candC]).length = 2 := by
  refine ⟨?_, ?_, ?_⟩
  · exact (interactiveSearch_spec 3 1 [candD, candE, candC]).1 candE (by decide) (by decide)
  · exact (interactiveSearch_spec 3 1 [candD, candE, candC]).2.1 candC (by decide)
  · exact ((interactiveSearch_spec 3 1 [candD, candE, candC]).2.2 (by decide)).trans
      (by decide)

/-- Modelled from the spec: a TextBlock produced by PageBlockReader (backend
src/extract.py is not in the source tree) — text with font size, bold flag
and page number; font sizes are carried at a fixed precision as naturals,
and the bounding box is not consumed by the modelled heuristics. -/
structure Block where
  text : String
  fontSize : Nat
  isBold : Bool
  page : Nat
  deriving Repr, DecidableEq

/-- Modelled from the spec: a parsed document has extractable text when some
block's text is non-empty. -/
def hasText (blocks : List Block) : Bool :=
  blocks.any (fun b => !b.text.isEmpty)

/-- Modelled from the spec: one batch entry — configured filename and title
plus the parse result; none models a stream that is not a valid PDF. -/
structure InputDoc where
  filename : String
  title : String
  parsed : Option (List Block)
  deriving Repr, DecidableEq

/-- Modelled from the spec: a document is readable when it parses and yields
extractable text; otherwise it is an UnreadablePdf. -/
def readableDoc (d : InputDoc) : Bool :=
  match d.parsed with
  | none => false
  | some bs => hasText bs

/-- Modelled from the spec: the batch loop, section 7 — an unreadable
document contributes a recorded warning and is skipped; a readable one is
passed on; no failure stops the remainder of the batch. -/
def processBatch : List InputDoc → List (String × List Block) × List String
  | [] => ([], [])
  | d :: rest =>
    let acc := processBatch rest
    if readableDoc d then ((d.filename, d.parsed.getD []) :: acc.1, acc.2)
    else (acc.1, d.filename :: acc.2)

/-- Batch processing distributes over concatenation of batches. -/
theorem processBatch_append (l1 l2 : List InputDoc) :
    processBatch (l1 ++ l2)
      = ((processBatch l1).1 ++ (processBatch l2).1,
         (processBatch l1).2 ++ (processBatch l2).2) := by
  induction l1 with
  | nil => simp [processBatch]
  | cons d rest ih =>
    by_cases h : readableDoc d = true
    · simp [processBatch, h, ih]
    · simp [processBatch, h, ih]

/-- C4: an unreadable document only adds its warning — the documents before
and after it are processed exactly as they are without it; in general the
processed list is exactly the readable documents in order and the warning
list exactly the unreadable ones. -/
theorem processBatch_isolation (pre suf : List InputDoc) (d : InputDoc)
    (hbad : readableDoc d = false) :
    ((processBatch (pre ++ d :: suf)).1
        = (processBatch pre).1 ++ (processBatch suf).1
      ∧ (processBatch (pre ++ d :: suf)).2
        = (processBatch pre).2 ++ d.filename :: (processBatch suf).2)
    ∧ (∀ batch : List InputDoc,
        (processBatch batch).1
          = (batch.filter readableDoc).map (fun e => (e.filename, e.parsed.getD []))
        ∧ (processBatch batch).2
          = (batch.filter (fun e => !readableDoc e)).map (fun e => e.filename)) := by
  have hchar : ∀ batch : List InputDoc,
      (processBatch batch).1
        = (batch.filter readableDoc).map (fun e => (e.filename, e.parsed.getD []))
      ∧ (processBatch batch).2
        = (batch.filter (fun e => !readableDoc e)).map (fun e => e.filename) := by
    intro batch
    induction batch with
    | nil => exact ⟨rfl, rfl⟩
    | cons e rest ih =>
      by_cases h : readableDoc e = true
      · simp [processBatch, h, ih.1, ih.2]
      · simp only [Bool.not_eq_true] at h
        simp [processBatch, h, ih.1, ih.2]
  refine ⟨⟨?_, ?_⟩, hchar⟩
  · rw [processBatch_append]
    simp [processBatch, hbad]
  · rw [processBatch_append]
    simp [processBatch, hbad]

/-- Readable concrete batch document. -/
def goodDoc : InputDoc :=
  { filename := "a.pdf", title := "A"
    parsed := some [{ text := "hello", fontSize := 10, isBold := false, page := 1 }] }

/-- Unreadable concrete batch document (parses to zero extractable text). -/
def badDoc : InputDoc :=
  { filename := "b.pdf", title := "B", parsed := some [] }

/-- Witness for C4 on a concrete batch: the unreadable middle document only
adds a warning and the surrounding documents are still processed. -/
theorem processBatch_isolation_witness :
    ((processBatch ([goodDoc] ++ badDoc :: [goodDoc])).1
        = (processBatch [goodDoc]).1 ++ (processBatch [goodDoc]).1
      ∧ (processBatch ([goodDoc] ++ badDoc :: [goodDoc])).2
        = (processBatch [goodDoc]).2 ++ badDoc.filename :: (processBatch [goodDoc]).2)
    ∧ (∀ batch : List InputDoc,
        (processBatch batch).1
          = (batch.filter readableDoc).map (fun e => (e.filename, e.parsed.getD []))
        ∧ (processBatch batch).2
          = (batch.filter (fun e => !readableDoc e)).map (fun e => e.filename)) :=
  processBatch_isolation [goodDoc] [goodDoc] badDoc (by decide)

/-- Modelled from the spec: number of words of a block's text — maximal runs
of non-space characters. -/
def countWordsAux : Bool → List Char → Nat
  | _, [] => 0
  | inWord, c :: rest =>
    if c = ' ' then countWordsAux false rest
    else (if inWord then 0 else 1) + countWordsAux true rest

/-- Word count of a string. -/
def wordCount (s : String) : Nat :=
  countWordsAux false s.data

/-- Modelled from the spec: the modal (most frequent) value of a list, the
earliest value winning ties, used as a page's body font size. -/
def modeOf (sizes : List Nat) : Nat :=
  match sizes with
  | [] => 0
  | x :: _ => sizes.foldl (fun best a => if sizes.count best < sizes.count a then a else best) x

/-- Modelled from the spec: the modal body font size of the page a block
lives on, section 4.2. -/
def modalFontSizeAt (blocks : List Block) (p : Nat) : Nat :=
  modeOf ((blocks.filter (fun x => x.page == p)).map (fun x => x.fontSize))

/-- Modelled from the spec: heading detection heuristic, section 4.2 — a
block is a heading candidate if its font size exceeds 1.15 times the page's
modal body font size (stated as the exact comparison 115 * modal < 100 *
size), or it is bold and at most 12 words long. -/
def isHeadingB (blocks : List Block) (b : Block) : Bool :=
  decide (115 * modalFontSizeAt blocks b.page < 100 * b.fontSize)
    || (b.isBold && decide (wordCount b.text ≤ 12))

/-- Modelled from the spec: heading level by relative font-size rank within
the document — one plus the number of distinct heading font sizes strictly
larger, section 4.2. -/
def headingLevelOf (blocks : List Block) (b : Block) : Nat :=
  ((((blocks.filter (fun x => isHeadingB blocks x)).map (fun x => x.fontSize)).dedup).filter
    (fun s => b.fontSize < s)).length + 1

/-- Modelled from the spec: a contiguous group while segmenting — the index
of its heading block in the document, the heading block and the body blocks
collected so far. -/
structure SegGroup where
  lo : Nat
  hb : Block
  body : List Block
  deriving Repr, DecidableEq

/-- Modelled from the spec: the segmentation walk — a heading block closes
the current group and opens a new one, a body block extends the current
group's body. -/
def groupsAux (isH : Block → Bool) : SegGroup → List Block → List SegGroup
  | cur, [] => [cur]
  | cur, b :: rest =>
    if isH b then
      cur :: groupsAux isH { lo := cur.lo + 1 + cur.body.length, hb := b, body := [] } rest
    else
      groupsAux isH { cur with body := cur.body ++ [b] } rest

/-- Modelled from the spec: groups of a block list whose first element (if
any) is a heading, starting at document index i. -/
def groups (isH : Block → Bool) (i : Nat) : List Block → List SegGroup
  | [] => []
  | h :: rest => groupsAux isH { lo := i, hb := h, body := [] } rest

/-- Modelled from the spec: a Section (data model, section 3) — heading,
heading level, start page, concatenated content, and the half-open index
span of its blocks within the document used to express non-overlap. -/
structure DocSection where
  heading : String
  heading_level : Nat
  start_page : Nat
  content : String
  lo : Nat
  hi : Nat
  deriving Repr, DecidableEq

/-- Concatenated text of a run of blocks. -/
def joinBlocks : List Block → String
  | [] => ""
  | b :: bs => b.text ++ joinBlocks bs

/-- Page of the first block of a run (1 for the empty run). -/
def headPageOf (bs : List Block) : Nat :=
  match bs with
  | [] => 1
  | b :: _ => b.page

/-- Modelled from the spec: heading of the whole-document fallback section —
the document title, or "Untitled" when the title is empty. -/
def fallbackHeading (title : String) : String :=
  if title = "" then "Untitled" else title

/-- Section built from one segmentation group: heading text, level, the
heading block's page, the joined body content and the block span. -/
def sectionOfGroup (blocks : List Block) (g : SegGroup) : DocSection :=
  { heading := g.hb.text
    heading_level := headingLevelOf blocks g.hb
    start_page := g.hb.page
    content := joinBlocks g.body
    lo := g.lo
    hi := g.lo + 1 + g.body.length }

/-- Modelled from the spec: SectionSegmenter before dropping empty sections
(section 4.2) — a document with no detected headings yields the single
whole-document section; otherwise the blocks before the first heading form
an "Untitled" preamble section and each heading opens a section running to
the next heading. -/
def rawSections (title : String) (blocks : List Block) : List DocSection :=
  if blocks.all (fun b => !isHeadingB blocks b) then
    [{ heading := fallbackHeading title, heading_level := 1
       start_page := headPageOf blocks, content := joinBlocks blocks
       lo := 0, hi := blocks.length }]
  else
    { heading := "Untitled", heading_level := 1
      start_page := headPageOf (blocks.takeWhile (fun b => !isHeadingB blocks b))
      content := joinBlocks (blocks.takeWhile (fun b => !isHeadingB blocks b))
      lo := 0, hi := (blocks.takeWhile (fun b => !isHeadingB blocks b)).length }
      :: (groups (fun b => isHeadingB blocks b)
            ((blocks.takeWhile (fun b => !isHeadingB blocks b)).length)
            (blocks.dropWhile (fun b => !isHeadingB blocks b))).map (sectionOfGroup blocks)

/-- Modelled from the spec: SectionSegmenter — the raw sections with the
empty-content ones dropped, section 4.2. -/
def segmentDocument (title : String) (blocks : List Block) : List DocSection :=
  (rawSections title blocks).filter (fun s => s.content != "")

/-- Every group produced from a starting group sits at or after its index. -/
theorem groupsAux_lo_ge (isH : Block → Bool) :
    ∀ (rest : List Block) (cur : SegGroup), ∀ g ∈ groupsAux isH cur rest, cur.lo ≤ g.lo := by
  intro rest
  induction rest with
  | nil =>
    intro cur g hg
    simp only [groupsAux, List.mem_singleton] at hg
    rw [hg]
  | cons b rest ih =>
    intro cur g hg
    by_cases hb : isH b
    · simp only [groupsAux, if_pos hb, List.mem_cons] at hg
      rcases hg with hg | hg
      · rw [hg]
      · have h2 := ih _ g hg
        simp only at h2
        omega
    · simp only [groupsAux, if_neg hb] at hg
      have h2 := ih _ g hg
      simpa using h2

/-- Block-index spans of the produced groups are pairwise disjoint and in
order. -/
theorem groupsAux_pairwise_span (isH : Block → Bool) :
    ∀ (rest : List Block) (cur : SegGroup),
      (groupsAux isH cur rest).Pairwise (fun a b => a.lo + 1 + a.body.length ≤ b.lo) := by
  intro rest
  induction rest with
  | nil => intro cur; simp [groupsAux]
  | cons b rest ih =>
    intro cur
    by_cases hb : isH b
    · simp only [groupsAux, if_pos hb]
      refine List.Pairwise.cons ?_ (ih _)
      intro g hg
      have h2 := groupsAux_lo_ge isH rest _ g hg
      simp only at h2
      omega
    · simp only [groupsAux, if_neg hb]
      exact ih _

/-- The heading block of every produced group is the starting group's
heading block or a member of the remaining block list. -/
theorem groupsAux_hb_mem (isH : Block → Bool) :
    ∀ (rest : List Block) (cur : SegGroup), ∀ g ∈ groupsAux isH cur rest,
      g.hb = cur.hb ∨ g.hb ∈ rest := by
  intro rest
  induction rest with
  | nil =>
    intro cur g hg
    simp only [groupsAux, List.mem_singleton] at hg
    exact Or.inl (by rw [hg])
  | cons b rest ih =>
    intro cur g hg
    by_cases hb : isH b
    · simp only [groupsAux, if_pos hb, List.mem_cons] at hg
      rcases hg with hg | hg
      · exact Or.inl (by rw [hg])
      · rcases ih _ g hg with h2 | h2
        · exact Or.inr (by simp only at h2; rw [h2]; exact List.mem_cons_self b rest)
        · exact Or.inr (List.mem_cons_of_mem b h2)
    · simp only [groupsAux, if_neg hb] at hg
      rcases ih _ g hg with h2 | h2
      · exact Or.inl (by simpa using h2)
      · exact Or.inr (List.mem_cons_of_mem b h2)

/-- When the starting heading block and the remaining blocks are ordered by
page, the produced groups' heading pages are pairwise non-decreasing. -/
theorem groupsAux_pairwise_page (isH : Block → Bool) :
    ∀ (rest : List Block) (cur : SegGroup),
      (cur.hb :: rest).Pairwise (fun a b => a.page ≤ b.page) →
      (groupsAux isH cur rest).Pairwise (fun a b => a.hb.page ≤ b.hb.page) := by
  intro rest
  induction rest with
  | nil => intro cur _; simp [groupsAux]
  | cons b rest ih =>
    intro cur hmono
    have hcons := List.pairwise_cons.mp hmono
    by_cases hb : isH b
    · simp only [groupsAux, if_pos hb]
      refine List.Pairwise.cons ?_ ?_
      · intro g hg
        rcases groupsAux_hb_mem isH rest _ g hg with h2 | h2
        · simp only at h2
          rw [h2]
          exact hcons.1 b (List.mem_cons_self b rest)
        · exact hcons.1 g.hb (List.mem_cons_of_mem b h2)
      · exact ih _ hcons.2
    · simp only [groupsAux, if_neg hb]
      apply ih
      have hsub : List.Sublist (cur.hb :: rest) (cur.hb :: b :: rest) :=
        List.Sublist.cons₂ cur.hb (List.sublist_cons_self b rest)
      exact hmono.sublist hsub

/-- Groups of a block run all start at or after the starting index. -/
theorem groups_lo_ge (isH : Block → Bool) (i : Nat) (l : List Block) :
    ∀ g ∈ groups isH i l, i ≤ g.lo := by
  cases l with
  | nil => intro g hg; simp [groups] at hg
  | cons h r =>
    intro g hg
    simpa using groupsAux_lo_ge isH r { lo := i, hb := h, body := [] } g hg

/-- Spans of the groups of a block run are pairwise disjoint and ordered. -/
theorem groups_pairwise_span (isH : Block → Bool) (i : Nat) (l : List Block) :
    (groups isH i l).Pairwise (fun a b => a.lo + 1 + a.body.length ≤ b.lo) := by
  cases l with
  | nil => simp [groups]
  | cons h r => exact groupsAux_pairwise_span isH r _

/-- Heading blocks of the groups of a block run belong to the run. -/
theorem groups_hb_mem (isH : Block → Bool) (i : Nat) (l : List Block) :
    ∀ g ∈ groups isH i l, g.hb ∈ l := by
  cases l with
  | nil => intro g hg; simp [groups] at hg
  | cons h r =>
    intro g hg
    rcases groupsAux_hb_mem isH r { lo := i, hb := h, body := [] } g hg with h2 | h2
    · simp only at h2
      rw [h2]
      exact List.mem_cons_self h r
    · exact List.mem_cons_of_mem h h2

/-- On a page-ordered block run the groups' heading pages are pairwise
non-decreasing. -/
theorem groups_pairwise_page (isH : Block → Bool) (i : Nat) (l : List Block)
    (hmono : l.Pairwise (fun a b => a.page ≤ b.page)) :
    (groups isH i l).Pairwise (fun a b => a.hb.page ≤ b.hb.page) := by
  cases l with
  | nil => simp [groups]
  | cons h r => exact groupsAux_pairwise_page isH r { lo := i, hb := h, body := [] } hmono

/-- Filtering keeps a pairwise relation that holds conditionally on the
filter predicate. -/
theorem pairwise_filter_of_imp {α : Type} {R : α → α → Prop} (q : α → Bool) :
    ∀ l : List α, l.Pairwise (fun a b => q a = true → q b = true → R a b) →
      (l.filter q).Pairwise R := by
  intro l h
  induction l with
  | nil => simp
  | cons a l ih =>
    rcases List.pairwise_cons.mp h with ⟨h1, h2⟩
    by_cases hq : q a = true
    · simp only [List.filter_cons, hq, if_pos]
      refine List.Pairwise.cons ?_ (ih h2)
      intro b hb
      exact h1 b (List.mem_filter.mp hb).1 hq (List.mem_filter.mp hb).2
    · simp only [List.filter_cons, hq, if_neg, Bool.false_eq_true, ite_false]
      exact ih h2

/-- The fallback heading is never empty. -/
theorem fallbackHeading_ne_empty (t : String) : fallbackHeading t ≠ "" := by
  unfold fallbackHeading
  by_cases h : t = ""
  · simp [h]
  · simp [h]

/-- Raw sections are pairwise span-disjoint and page-ordered, conditionally
on having non-empty content (the preamble with empty content is exempt and
is dropped later anyway). -/
theorem rawSections_pairwise (title : String) (blocks : List Block)
    (hmono : blocks.Pairwise (fun a b => a.page ≤ b.page)) :
    (rawSections title blocks).Pairwise
      (fun s t => (s.content != "") = true → (t.content != "") = true →
        (s.hi ≤ t.lo ∧ s.start_page ≤ t.start_page)) := by
  unfold rawSections
  split
  · simp
  · refine List.pairwise_cons.mpr ⟨?_, ?_⟩
    · intro t ht hc _
      rw [List.mem_map] at ht
      obtain ⟨g, hg, rfl⟩ := ht
      constructor
      · exact groups_lo_ge _ _ _ g hg
      · have hne : blocks.takeWhile (fun b => !isHeadingB blocks b) ≠ [] := by
          intro he
          rw [he] at hc
          simp [joinBlocks] at hc
        obtain ⟨b0, l0, hpre⟩ := List.exists_cons_of_ne_nil hne
        have hb0 : b0 ∈ blocks.takeWhile (fun b => !isHeadingB blocks b) := by
          rw [hpre]; exact List.mem_cons_self b0 l0
        have hgb : g.hb ∈ blocks.dropWhile (fun b => !isHeadingB blocks b) :=
          groups_hb_mem _ _ _ g hg
        have hmono2 : ((blocks.takeWhile (fun b => !isHeadingB blocks b))
            ++ (blocks.dropWhile (fun b => !isHeadingB blocks b))).Pairwise
              (fun a b => a.page ≤ b.page) := by
          rw [List.takeWhile_append_dropWhile]
          exact hmono
        have hcross := (List.pairwise_append.mp hmono2).2.2 b0 hb0 g.hb hgb
        show headPageOf (blocks.takeWhile (fun b => !isHeadingB blocks b))
          ≤ (sectionOfGroup blocks g).start_page
        rw [hpre]
        exact hcross
    · rw [List.pairwise_map]
      have hspan := groups_pairwise_span (fun b => isHeadingB blocks b)
        ((blocks.takeWhile (fun b => !isHeadingB blocks b)).length)
        (blocks.dropWhile (fun b => !isHeadingB blocks b))
      have hpage := groups_pairwise_page (fun b => isHeadingB blocks b)
        ((blocks.takeWhile (fun b => !isHeadingB blocks b)).length)
        (blocks.dropWhile (fun b => !isHeadingB blocks b))
        (hmono.sublist (List.dropWhile_sublist (fun b => !isHeadingB blocks b)))
      exact (hspan.and hpage).imp (fun h _ _ => ⟨h.1, h.2⟩)

/-- Every raw section's heading is non-empty when block texts are. -/
theorem rawSections_heading (title : String) (blocks : List Block)
    (htext : ∀ b ∈ blocks, b.text ≠ "") :
    ∀ s ∈ rawSections title blocks, s.heading ≠ "" := by
  intro s hs
  unfold rawSections at hs
  split at hs
  · simp only [List.mem_singleton] at hs
    rw [hs]
    exact fallbackHeading_ne_empty title
  · rcases List.mem_cons.mp hs with h | h
    · rw [h]
      show ("Untitled" : String) ≠ ""
      decide
    · rw [List.mem_map] at h
      obtain ⟨g, hg, rfl⟩ := h
      have hmem : g.hb ∈ blocks.dropWhile (fun b => !isHeadingB blocks b) :=
        groups_hb_mem _ _ _ g hg
      exact htext g.hb ((List.dropWhile_sublist (fun b => !isHeadingB blocks b)).subset hmem)

/-- C5: on a page-ordered block list with non-empty block texts, the emitted
sections have pairwise disjoint, ordered spans and non-decreasing start
pages, and every emitted section carries a non-empty heading and non-empty
content. -/
theorem segmentDocument_spec (title : String) (blocks : List Block)
    (hmono : blocks.Pairwise (fun a b => a.page ≤ b.page))
    (htext : ∀ b ∈ blocks, b.text ≠ "") :
    (segmentDocument title blocks).Pairwise
      (fun s t => s.hi ≤ t.lo ∧ s.start_page ≤ t.start_page)
    ∧ ∀ s ∈ segmentDocument title blocks, s.heading ≠ "" ∧ s.content ≠ "" := by
  constructor
  · exact pairwise_filter_of_imp _ _ (rawSections_pairwise title blocks hmono)
  · intro s hs
    have hm := List.mem_filter.mp hs
    exact ⟨rawSections_heading title blocks htext s hm.1, bne_iff_ne.mp hm.2⟩

/-- C6: a document in which no heading is detected yields exactly one
section whose heading is the (non-empty) document title and whose content
is the full document text. -/
theorem segmentDocument_noHeadings (title : String) (blocks : List Block)
    (hnone : ∀ b ∈ blocks, isHeadingB blocks b = false)
    (hne : blocks ≠ []) (htext : ∀ b ∈ blocks, b.text ≠ "") (htitle : title ≠ "") :
    segmentDocument title blocks
      = [{ heading := title, heading_level := 1, start_page := headPageOf blocks
           content := joinBlocks blocks, lo := 0, hi := blocks.length }] := by
  have hall : blocks.all (fun b => !isHeadingB blocks b) = true := by
    rw [List.all_eq_true]
    intro b hb
    simp [hnone b hb]
  have hjoin : joinBlocks blocks ≠ "" := by
    obtain ⟨b0, l0, rfl⟩ := List.exists_cons_of_ne_nil hne
    simp only [joinBlocks]
    intro h
    apply htext b0 (List.mem_cons_self b0 l0)
    have hdata : (b0.text ++ joinBlocks l0).data = [] := by rw [h]
    rw [String.data_append] at hdata
    exact String.ext (List.append_eq_nil.mp hdata).1
  have hq : (joinBlocks blocks != "") = true := bne_iff_ne.mpr hjoin
  simp only [segmentDocument, rawSections, hall, if_pos, List.filter_cons, hq,
    List.filter_nil, if_true]
  simp [fallbackHeading, htitle]

/-- Bold one-word heading block on page 1 used by the segmenter witnesses. -/
def hblock1 : Block := { text := "Intro", fontSize := 12, isBold := true, page := 1 }

/-- Body block on page 1 used by the segmenter witnesses. -/
def bblock1 : Block := { text := "hello", fontSize := 10, isBold := false, page := 1 }

/-- Bold one-word heading block on page 2 used by the segmenter witnesses. -/
def hblock2 : Block := { text := "Results", fontSize := 12, isBold := true, page := 2 }

/-- Body block on page 2 used by the segmenter witnesses. -/
def bblock2 : Block := { text := "world", fontSize := 10, isBold := false, page := 2 }

/-- Witness for C5 on a concrete two-heading document. -/
theorem segmentDocument_spec_witness :
    ([hblock1, bblock1, hblock2, bblock2].Pairwise (fun a b => a.page ≤ b.page)
      ∧ ∀ b ∈ [hblock1, bblock1, hblock2, bblock2], b.text ≠ "")
    ∧ ((segmentDocument "T" [hblock1, bblock1, hblock2, bblock2]).Pairwise
        (fun s t => s.hi ≤ t.lo ∧ s.start_page ≤ t.start_page)
      ∧ ∀ s ∈ segmentDocument "T" [hblock1, bblock1, hblock2, bblock2],
          s.heading ≠ "" ∧ s.content ≠ "") :=
  ⟨⟨by decide, by decide⟩,
   segmentDocument_spec "T" [hblock1, bblock1, hblock2, bblock2] (by decide) (by decide)⟩

/-- Witness for C6 on a concrete heading-less document. -/
theorem segmentDocument_noHeadings_witness :
    ((∀ b ∈ [bblock1, bblock2], isHeadingB [bblock1, bblock2] b = false)
      ∧ ([bblock1, bblock2] : List Block) ≠ [])
    ∧ segmentDocument "Doc" [bblock1, bblock2]
        = [{ heading := "Doc", heading_level := 1
             start_page := headPageOf [bblock1, bblock2]
             content := joinBlocks [bblock1, bblock2]
             lo := 0, hi := ([bblock1, bblock2] : List Block).length }] :=
  ⟨⟨by decide, by decide⟩,
   segmentDocument_noHeadings "Doc" [bblock1, bblock2] (by decide) (by decide) (by decide)
     (by decide)⟩
